import Mathlib

/-!
Shallow embedding of the merge/registry/index core of the ag-jz CLI
(`src/packages/ag-jz/bin/index.js`).

Modelling conventions:
* A directory tree is `FSTree`: files carry their textual content, directories
  carry an ordered entry list (`readdirSync` order), represented by the
  mutually inductive `FSList` so that every operation is structurally
  recursive and computable by the kernel.  Real directories have pairwise
  distinct entry names; that invariant is the boolean `fsWfE`.
* JavaScript objects used as string-keyed maps (`registry.kits`,
  `registry.files`) are association lists with JS object semantics:
  assignment to an existing key updates it in place, otherwise the pair is
  appended (`alset` / `updKit`).
* Timestamps (`new Date().toISOString()`) are abstracted to a `Nat` supplied
  once per merge call; all timestamps written during one call coincide.
* Fallible `fs` calls: `copyFileSync` failures for environmental reasons
  (locks/permissions) are modelled by an oracle `fails : List String` of
  destination-relative paths whose copy throws; the `catch {}` around the
  copy swallows exactly those.  `readdirSync`/`mkdirSync`/`readFileSync`
  errors are uncaught in the source and are modelled as error outcomes.
* The persisted registry file `.sync-registry.json` inside the target
  directory is modelled as a separate `Option Registry` component of `Store`
  rather than as a tree entry (its JSON encoding is irrelevant to the claims).
* String scanning (the frontmatter regexes, `toLowerCase`, `startsWith`) is
  modelled on `List Char`, faithful to the JS semantics on ASCII content.
-/

namespace AgJz

mutual

/-- File-system tree: a file with content, or a directory with named
entries. -/
inductive FSTree where
| file : String → FSTree
| dir : FSList → FSTree

/-- Ordered entry list of a directory (`readdirSync` order). -/
inductive FSList where
| nil : FSList
| cons : String → FSTree → FSList → FSList

end

/-- Build an `FSList` from a Lean list of named entries. -/
def entries : List (String × FSTree) → FSList
| [] => .nil
| (n, t) :: r => .cons n t (entries r)

/-- Lookup of a directory entry by name (`fs.existsSync` / path resolution). -/
def algetF : FSList → String → Option FSTree
| .nil, _ => none
| .cons n' t r, n => if n' = n then some t else algetF r n

/-- Create or overwrite a directory entry by name, preserving order. -/
def alsetF : FSList → String → FSTree → FSList
| .nil, n, t => .cons n t .nil
| .cons n' t' r, n, t =>
  if n' = n then .cons n' t r else .cons n' t' (alsetF r n t)

/-- Lookup in a string-keyed association list (JS object property read). -/
def alget {α : Type} : List (String × α) → String → Option α
| [], _ => none
| (k', v) :: r, k => if k' = k then some v else alget r k

/-- Assignment in a string-keyed association list (JS object property write):
update in place if the key exists, else append, preserving insertion order. -/
def alset {α : Type} : List (String × α) → String → α → List (String × α)
| [], k, v => [(k, v)]
| (k', v') :: r, k, v => if k' = k then (k', v) :: r else (k', v') :: alset r k v

/-- Update the value at a key in place, leaving the list unchanged when the
key is absent (the source only does this when the key is known present). -/
def updKit {α : Type} : List (String × α) → String → (α → α) → List (String × α)
| [], _, _ => []
| (k', v) :: r, k, f =>
  if k' = k then (k', f v) :: r else (k', v) :: updKit r k f

/-- ASCII character class of the JS regexes `[^a-zA-Z0-9]` / `[^a-z0-9]`. -/
def isAlnumChar (c : Char) : Bool :=
  (decide ('a' ≤ c) && decide (c ≤ 'z')) ||
  (decide ('A' ≤ c) && decide (c ≤ 'Z')) ||
  (decide ('0' ≤ c) && decide (c ≤ '9'))

/-- Kit identifier sanitization: `repoSource.replace(/[^a-zA-Z0-9]/g, '_')`
(line 78 of the source). -/
def sanitizeKitId (s : String) : String :=
  String.mk (s.data.map (fun c => if isAlnumChar c then c else '_'))

/-- Per-kit registry record (`registry.kits[kitId]`, lines 80-88). -/
structure KitInfo where
  source : String
  installedAt : Nat
  lastUpdated : Nat
  files : List String
deriving Repr, DecidableEq

/-- Global file-ownership record (`registry.files[relPath]`, lines 127-130). -/
structure FileOwner where
  kit : String
  updatedAt : Nat
deriving Repr, DecidableEq

/-- The registry document `{kits: {...}, files: {...}}`. -/
structure Registry where
  kits : List (String × KitInfo)
  files : List (String × FileOwner)
deriving Repr, DecidableEq

/-- The persistent state of the target directory: its tree (`none` while the
directory does not yet exist) and the persisted registry file (`none` while
absent, in which case `loadRegistry` falls open to an empty document). -/
structure Store where
  tree : Option FSList
  registryFile : Option Registry

/-- Registry Store load (lines 232-238): absent file yields the empty
document. -/
def loadRegistry (s : Store) : Registry :=
  s.registryFile.getD ⟨[], []⟩

/-- `path.join` restricted to the relative paths the merge builds. -/
def pathJoin (a b : String) : String :=
  if a = "" then b else a ++ "/" ++ b

/-- Root-stage exclusion list applied only when syncing from a repository
root at relative depth 0 (lines 97-103). -/
def rootExclude : List String :=
  [".git", ".github", "node_modules", "package.json",
   "package-lock.json", ".gitignore", "README.md", "LICENSE",
   "packages", "assets", "mcp_config.json", "skills_index.json",
   ".sync-registry.json", "SECURITY.md", "release_notes.md",
   "CONTRIBUTING.md", "CHANGELOG.md", "CATALOG.md"]

/-- Folder names excluded at every depth (line 108). -/
def globalExcludeDirs : List String := ["docs", "bin", "lib", "packages"]

/-- Meta-document file names excluded at every depth (line 109). -/
def globalExcludeFiles : List String :=
  ["SECURITY.md", "release_notes.md", "CONTRIBUTING.md", "CHANGELOG.md", "CATALOG.md"]

/-- Depth-independent exclusions (lines 108-109). -/
def globallyExcluded (n : String) : Bool :=
  decide (n ∈ globalExcludeDirs) || decide (n ∈ globalExcludeFiles)

/-- Whether entry `n` at relative path `rel` is skipped by `copyRecursive`
(lines 96-109). -/
def excludedEntry (isRoot : Bool) (rel n : String) : Bool :=
  (isRoot && decide (rel = "") && decide (n ∈ rootExclude)) || globallyExcluded n

/-- Record one successfully copied file into the registry (lines 127-134):
last-writer-wins ownership plus deduplicated membership in the kit's list. -/
def recordFile (reg : Registry) (kitId : String) (now : Nat) (p : String) :
    Registry :=
  { reg with
    files := alset reg.files p ⟨kitId, now⟩
    kits := updKit reg.kits kitId
      (fun ki => if p ∈ ki.files then ki else { ki with files := ki.files ++ [p] }) }

/-- Result of one `copyRecursive` walk: destination entries, in-memory
registry, destination-relative paths of the files whose copy succeeded (in
copy order), and the message of an uncaught exception if one aborted the
walk. -/
structure WalkRes where
  dest : FSList
  reg : Registry
  copied : List String
  error : Option String

/-- Walk of a source directory whose destination path is occupied by a
regular file: every file copy throws `ENOTDIR` and is swallowed; the first
non-excluded subdirectory makes the uncaught `mkdirSync` throw. -/
def walkBroken : FSList → Option String
| .nil => none
| .cons n t rest =>
  if globallyExcluded n then walkBroken rest
  else
    match t with
    | .file _ => walkBroken rest
    | .dir _ => some "ENOTDIR"

/-- Sequencing after `copyRecursive` has returned from one subdirectory
(lines 116-120): the destination entry `n` now holds the recursively merged
subtree; if an exception escaped the subdirectory the loop is abandoned and
the exception propagates, otherwise the remaining entries are processed by
the continuation `k` on the updated destination and registry. -/
def continueWalk (dest : FSList) (n : String) (r : WalkRes)
    (k : FSList → Registry → WalkRes) : WalkRes :=
  match r.error with
  | some e => ⟨alsetF dest n (.dir r.dest), r.reg, r.copied, some e⟩
  | none =>
    let r2 := k (alsetF dest n (.dir r.dest)) r.reg
    ⟨r2.dest, r2.reg, r.copied ++ r2.copied, r2.error⟩

mutual

/-- `copyRecursive(src, dest, relativePath)` entered on a source path
(lines 91-140): `readdirSync` throws on a regular file, otherwise the
entries are walked. -/
def walkTree (isRoot : Bool) (kitId : String) (now : Nat)
    (fails : List String) : FSTree → String → FSList → Registry → WalkRes
| .file _, _, dest, reg => ⟨dest, reg, [], some "ENOTDIR"⟩
| .dir es, rel, dest, reg => walkEntries isRoot kitId now fails es rel dest reg

/-- The entry loop of `copyRecursive`, iterating the `readdirSync` entries of
one source directory.  `dest` holds the entries of the corresponding
destination directory. -/
def walkEntries (isRoot : Bool) (kitId : String) (now : Nat)
    (fails : List String) : FSList → String → FSList → Registry → WalkRes
| .nil, _, dest, reg => ⟨dest, reg, [], none⟩
| .cons n t rest, rel, dest, reg =>
  if excludedEntry isRoot rel n then
    walkEntries isRoot kitId now fails rest rel dest reg
  else
    match t with
    | .file c =>
      let relP := pathJoin rel n
      if relP ∈ fails then
        walkEntries isRoot kitId now fails rest rel dest reg
      else
        let r := walkEntries isRoot kitId now fails rest rel
          (alsetF dest n (.file c)) (recordFile reg kitId now relP)
        ⟨r.dest, r.reg, relP :: r.copied, r.error⟩
    | .dir es2 =>
      match algetF dest n with
      | some (.file _) =>
        match walkBroken es2 with
        | some e => ⟨dest, reg, [], some e⟩
        | none => walkEntries isRoot kitId now fails rest rel dest reg
      | some (.dir d) =>
        continueWalk dest n
          (walkTree isRoot kitId now fails t (pathJoin rel n) d reg)
          (fun d' reg' => walkEntries isRoot kitId now fails rest rel d' reg')
      | none =>
        continueWalk dest n
          (walkTree isRoot kitId now fails t (pathJoin rel n) .nil reg)
          (fun d' reg' => walkEntries isRoot kitId now fails rest rel d' reg')

end

/-- Folder names whose presence at the repository root enables the root
fallback (line 60). -/
def commonFolders : List String :=
  ["skills", "workflows", "rules", "scripts", "docs", "assets"]

/-- Outcome of one `mergeAgentFolder` call: the target directory state after
the call, the in-memory registry object at the moment the call ended, the
relative paths successfully copied, and the uncaught error if one was
thrown. -/
structure MergeResult where
  store : Store
  memRegistry : Registry
  copied : List String
  error : Option String

/-- Kit-record creation and refresh (lines 80-88): create the record with
`source`, `installedAt` and an empty files list when absent, then
unconditionally stamp `lastUpdated`. -/
def initKit (reg : Registry) (repoSource : String) (now : Nat) : Registry :=
  let kitId := sanitizeKitId repoSource
  let reg1 :=
    if (alget reg.kits kitId).isSome then reg
    else { reg with kits := alset reg.kits kitId ⟨repoSource, now, now, []⟩ }
  { reg1 with kits := updKit reg1.kits kitId (fun ki => { ki with lastUpdated := now }) }

/-- Core of `mergeAgentFolder` after the source root has been resolved
(lines 71-153): ensure the target directory exists, load the registry from
disk, create or refresh the kit record, run `copyRecursive`, and — only when
no exception escaped the walk — save the updated registry back to disk. -/
def mergeFrom (src : FSTree) (isRoot : Bool) (s : Store) (repoSource : String)
    (now : Nat) (fails : List String) : MergeResult :=
  let destEntries := s.tree.getD .nil
  let kitId := sanitizeKitId repoSource
  let reg2 := initKit (loadRegistry s) repoSource now
  let r := walkTree isRoot kitId now fails src "" destEntries reg2
  match r.error with
  | some e => ⟨⟨some r.dest, s.registryFile⟩, r.reg, r.copied, some e⟩
  | none => ⟨⟨some r.dest, some r.reg⟩, r.reg, r.copied, none⟩

/-- `mergeAgentFolder(tempDir, globalDir, repoSource)` (lines 53-154): prefer
the `.agent` subfolder of the fetched repository; fall back to the
repository root when one of the conventional folder names exists there;
otherwise throw before touching the target directory or the registry. -/
def mergeAgentFolder (tempDir : FSList) (s : Store)
    (repoSource : String) (now : Nat) (fails : List String) : MergeResult :=
  match algetF tempDir ".agent" with
  | some t => mergeFrom t false s repoSource now fails
  | none =>
    if commonFolders.any (fun f => (algetF tempDir f).isSome) then
      mergeFrom (.dir tempDir) true s repoSource now fails
    else
      ⟨s, loadRegistry s, [],
        some "Could not find .agent folder or common agent folders (skills, workflows, scripts) in source repository!"⟩

/-- ASCII lower-casing of one character (`String.prototype.toLowerCase` on
the ASCII range, which is all the source's marker names use). -/
def lowerChar (c : Char) : Char :=
  if decide ('A' ≤ c) && decide (c ≤ 'Z') then Char.ofNat (c.toNat + 32) else c

/-- ASCII lower-casing of a character sequence. -/
def lowerStr (s : List Char) : List Char := s.map lowerChar

/-- Does the character sequence start with the given pattern? -/
def startsW : List Char → List Char → Bool
| _, [] => true
| [], _ :: _ => false
| c :: s, p :: ps => c == p && startsW s ps

/-- Leftmost occurrence of `pat` in a character sequence, returning the text
before the occurrence and the text after it (the semantics of a first
unanchored regex match). -/
def findSplit (pat : List Char) : List Char → Option (List Char × List Char)
| [] => if pat.isEmpty then some ([], []) else none
| c :: rest =>
  if startsW (c :: rest) pat then some ([], (c :: rest).drop pat.length)
  else
    match findSplit pat rest with
    | some (pre, post) => some (c :: pre, post)
    | none => none

/-- Drop trailing whitespace (the tail half of `String.prototype.trim`). -/
def trimTail (cs : List Char) : List Char :=
  (cs.reverse.dropWhile Char.isWhitespace).reverse

/-- Frontmatter block of `content.match` on the regex `^---\n([\s\S]*?)\n---`
(line 187): the content must begin with a `---` line, and the block runs
lazily up to the first subsequent line starting with `---`. -/
def fmBlock (cs : List Char) : Option (List Char) :=
  if startsW cs ("---\n".data) then
    match findSplit ("\n---".data) (cs.drop 4) with
    | some (pre, _) => some pre
    | none => none
  else none

/-- Field extraction `fm.match` on the regex `name:\s*(.*)` followed by
`.trim()` (lines 190-193): first occurrence of the label anywhere in the
block, skip whitespace (which in JS may cross a line break), capture to the
end of the line, trim the tail. -/
def matchField (pat : List Char) (cs : List Char) : Option (List Char) :=
  match findSplit pat cs with
  | none => none
  | some (_, post) =>
    some (trimTail ((post.dropWhile Char.isWhitespace).takeWhile
      (fun c => !(c == '\n') && !(c == '\r'))))

/-- Skill-id slug `folderName.toLowerCase().replace(/[^a-z0-9]/g, '-')`
(line 203). -/
def slugify (s : String) : String :=
  String.mk ((lowerStr s.data).map (fun c => if isAlnumChar c then c else '-'))

/-- Workspace-relative path recorded for a skill (line 200). -/
def skillPath (pc d : String) : String :=
  if pc = "" then ".agent/skills/" ++ d else ".agent/skills/" ++ pc ++ "/" ++ d

/-- One entry of `skills_index.json` (lines 202-210). -/
structure Skill where
  id : String
  path : String
  category : String
  name : String
  description : String
  risk : String
  source : String
deriving Repr, DecidableEq

/-- Does the JS string start with `"."` (`entry.name.startsWith('.')`)? -/
def isHidden (n : String) : Bool :=
  match n.data with
  | c :: _ => c == '.'
  | [] => false

/-- Case-insensitive skill-marker detection
`entries.some(e => e.name.toLowerCase() === 'skill.md')` (line 177). -/
def hasSkillMd : FSList → Bool
| .nil => false
| .cons n _ rest => (lowerStr n.data == "skill.md".data) || hasSkillMd rest

mutual

/-- `processDir(currentPath, parentCategory)` (lines 173-221).  `dirName` is
`path.basename(currentPath)`.  When the directory is detected as a skill the
marker is read at the exact name `SKILL.md`; `readFileSync` throws (uncaught)
when that exact entry is absent or is a directory. -/
def processDir : FSTree → String → String → Except String (List Skill)
| .file _, _, _ => .error "ENOTDIR"
| .dir es, dirName, pc =>
  if hasSkillMd es then
    match algetF es "SKILL.md" with
    | some (.file content) =>
      let nameVal :=
        match fmBlock content.data with
        | some fm =>
          match matchField ("name:".data) fm with
          | some v => String.mk v
          | none => dirName
        | none => dirName
      let descVal :=
        match fmBlock content.data with
        | some fm =>
          match matchField ("description:".data) fm with
          | some v => String.mk v
          | none => ""
        | none => ""
      .ok [⟨slugify dirName, skillPath pc dirName,
            if pc = "" then "general" else pc,
            nameVal, descVal, "low", "local"⟩]
    | some (.dir _) => .error "EISDIR"
    | none => .error "ENOENT"
  else
    if pc = "" then processKids es
    else .ok []

/-- The category-discovery loop of `processDir` (lines 213-219): recurse into
each non-hidden subdirectory, passing its own name as both basename and
parent category. -/
def processKids : FSList → Except String (List Skill)
| .nil => .ok []
| .cons n t rest =>
  match t with
  | .file _ => processKids rest
  | .dir _ =>
    if isHidden n then processKids rest
    else
      match processDir t n n with
      | .error e => .error e
      | .ok s =>
        match processKids rest with
        | .error e => .error e
        | .ok r => .ok (s ++ r)

end

/-- Outcome of `generateSkillsIndex` (lines 162-228): early return with only
a warning when no `skills` entry exists; a full overwrite of
`skills_index.json` with the freshly built array on success; an uncaught
exception otherwise. -/
inductive IndexOutcome where
| skipped
| written : List Skill → IndexOutcome
| crashed : String → IndexOutcome
deriving Repr, DecidableEq

/-- `generateSkillsIndex(targetDir)` on the entries of the target
directory. -/
def generateSkillsIndex (target : FSList) : IndexOutcome :=
  match algetF target "skills" with
  | none => .skipped
  | some t =>
    match processDir t "skills" "" with
    | .ok skills => .written skills
    | .error e => .crashed e

/-- Contents of `skills_index.json` after one `generateSkillsIndex` call,
given its contents before (`none` = the file does not exist):
`writeFileSync` runs only on the `.written` outcome. -/
def indexFileAfter (prior : Option (List Skill)) (target : FSList) :
    Option (List Skill) :=
  match generateSkillsIndex target with
  | .written s => some s
  | _ => prior

/-- Structural induction over directory-entry lists, with a separate
hypothesis for file and directory entries; the directory hypothesis also
provides the induction hypothesis for the nested entry list, matching the
recursion pattern of `walkEntries` and `processKids`. -/
def entriesInduct (P : FSList → Prop)
    (h0 : P .nil)
    (h1 : ∀ n c rest, P rest → P (.cons n (.file c) rest))
    (h2 : ∀ n es2 rest, P es2 → P rest → P (.cons n (.dir es2) rest)) :
    ∀ es, P es
| .nil => h0
| .cons n (.file c) rest => h1 n c rest (entriesInduct P h0 h1 h2 rest)
| .cons n (.dir es2) rest =>
  h2 n es2 rest (entriesInduct P h0 h1 h2 es2) (entriesInduct P h0 h1 h2 rest)
termination_by es => sizeOf es
decreasing_by all_goals (simp_wf <;> omega)

/-- Does the entry list contain an entry of the given name? -/
def hasName : FSList → String → Bool
| .nil, _ => false
| .cons n' _ rest, n => decide (n' = n) || hasName rest n

/-- Pairwise distinctness of the entry names of one directory level (a
real file system guarantees this for `readdirSync` output). -/
def namesNodupF : FSList → Bool
| .nil => true
| .cons n _ rest => !(hasName rest n) && namesNodupF rest

mutual

/-- Well-formedness of a tree: every directory at every depth has pairwise
distinct entry names. -/
def fsWfT : FSTree → Bool
| .file _ => true
| .dir es => namesNodupF es && fsWfE es

/-- Well-formedness of every tree in an entry list. -/
def fsWfE : FSList → Bool
| .nil => true
| .cons _ t rest => fsWfT t && fsWfE rest

end

/-- Well-formedness of a directory level together with its own name
distinctness. -/
def fsWfRoot (es : FSList) : Bool := namesNodupF es && fsWfE es

mutual

/-- Compatibility of a source tree with a destination entry list: no source
directory meets a regular file of the same name on the destination side at
any depth (such a collision makes the uncaught `mkdirSync` of the source
throw and is the only way `copyRecursive` can abort). -/
def compatT : FSTree → FSList → Bool
| .file _, _ => true
| .dir es, d => compatE es d

/-- Compatibility of each entry of a source directory with a destination
entry list. -/
def compatE : FSList → FSList → Bool
| .nil, _ => true
| .cons n t rest, d =>
  (match t with
   | .file _ => true
   | .dir _ =>
     match algetF d n with
     | none => true
     | some (.file _) => false
     | some (.dir d') => compatT t d') && compatE rest d

end

mutual

/-- Destination-relative paths of every file `copyRecursive` attempts to
copy out of a source tree, honouring both exclusion stages; independent of
the destination and of which copies fail. -/
def allFilesT (isRoot : Bool) : FSTree → String → List String
| .file _, _ => []
| .dir es, rel => allFilesE isRoot es rel

/-- Attempted-copy paths of one entry list. -/
def allFilesE (isRoot : Bool) : FSList → String → List String
| .nil, _ => []
| .cons n t rest, rel =>
  if excludedEntry isRoot rel n then allFilesE isRoot rest rel
  else
    match t with
    | .file _ => pathJoin rel n :: allFilesE isRoot rest rel
    | .dir _ => allFilesT isRoot t (pathJoin rel n) ++ allFilesE isRoot rest rel

end

/-- Well-formedness of a registry document: no kit's files list contains a
path twice. -/
def RegistryWF (r : Registry) : Prop :=
  ∀ k ki, alget r.kits k = some ki → ki.files.Nodup

/-- Well-formedness of a persisted store: the registry file, when present,
is well-formed. -/
def StoreWF (s : Store) : Prop :=
  ∀ r, s.registryFile = some r → RegistryWF r

/-- Arguments of one `mergeAgentFolder` call during a sync loop. -/
structure MergeCall where
  temp : FSList
  src : String
  now : Nat
  fails : List String

/-- The sync loop of `syncCommand` (lines 268-281) restricted to its merge
effects on the target store: each source is merged in order; a failed merge
leaves the loop running. -/
def runMerges (s : Store) : List MergeCall → Store
| [] => s
| c :: cs => runMerges (mergeAgentFolder c.temp s c.src c.now c.fails).store cs

/-- Two character sequences differ only in their non-alphanumeric
characters: same length, and at each position either the same alphanumeric
character on both sides, or a (possibly different) non-alphanumeric
character on both sides. -/
def sameShape : List Char → List Char → Bool
| [], [] => true
| c1 :: r1, c2 :: r2 =>
  ((isAlnumChar c1 && decide (c1 = c2)) ||
   (!isAlnumChar c1 && !isAlnumChar c2)) && sameShape r1 r2
| _, _ => false

/-- A minimal fetched repository carrying one `.agent` file, used as a
concrete scenario. -/
def demoAgentA : FSList :=
  entries [(".agent", .dir (entries [("a.md", .file "x")]))]

theorem alget_alset_self {α : Type} (m : List (String × α)) (k : String) (v : α) :
    alget (alset m k v) k = some v := by
  induction m with
  | nil => simp [alset, alget]
  | cons p r ih =>
    obtain ⟨k', v'⟩ := p
    simp only [alset]
    by_cases h : k' = k
    · subst h
      simp [alget]
    · simp [alget, h, ih]

theorem alget_alset_ne {α : Type} (m : List (String × α)) (k k' : String) (v : α)
    (h : k' ≠ k) : alget (alset m k v) k' = alget m k' := by
  induction m with
  | nil => simp [alset, alget, Ne.symm h]
  | cons p r ih =>
    obtain ⟨k'', v''⟩ := p
    simp only [alset]
    by_cases h2 : k'' = k
    · subst h2
      simp [alget, Ne.symm h]
    · simp only [if_neg h2]
      by_cases h3 : k'' = k' <;> simp [alget, h3, ih]

theorem alget_updKit_self {α : Type} (m : List (String × α)) (k : String)
    (f : α → α) : alget (updKit m k f) k = (alget m k).map f := by
  induction m with
  | nil => simp [updKit, alget]
  | cons p r ih =>
    obtain ⟨k', v'⟩ := p
    simp only [updKit]
    by_cases h : k' = k
    · subst h
      simp [alget]
    · simp [alget, h, ih]

theorem alget_updKit_ne {α : Type} (m : List (String × α)) (k k' : String)
    (f : α → α) (h : k' ≠ k) : alget (updKit m k f) k' = alget m k' := by
  induction m with
  | nil => simp [updKit, alget]
  | cons p r ih =>
    obtain ⟨k'', v''⟩ := p
    simp only [updKit]
    by_cases h2 : k'' = k
    · subst h2
      simp [alget, Ne.symm h]
    · simp only [if_neg h2]
      by_cases h3 : k'' = k' <;> simp [alget, h3, ih]

theorem algetF_alsetF_self (d : FSList) (n : String) (t : FSTree) :
    algetF (alsetF d n t) n = some t := by
  induction d using entriesInduct with
  | h0 => simp [alsetF, algetF]
  | h1 n' c rest ih =>
    simp only [alsetF]
    by_cases h : n' = n
    · subst h
      simp [algetF]
    · simp [algetF, h, ih]
  | h2 n' es2 rest ih1 ih2 =>
    simp only [alsetF]
    by_cases h : n' = n
    · subst h
      simp [algetF]
    · simp [algetF, h, ih2]

theorem algetF_alsetF_ne (d : FSList) (n m : String) (t : FSTree)
    (h : m ≠ n) : algetF (alsetF d n t) m = algetF d m := by
  induction d using entriesInduct with
  | h0 => simp [alsetF, algetF, Ne.symm h]
  | h1 n' c rest ih =>
    simp only [alsetF]
    by_cases h2 : n' = n
    · subst h2
      simp [algetF, Ne.symm h]
    · simp only [if_neg h2]
      by_cases h3 : n' = m <;> simp [algetF, h3, ih]
  | h2 n' es2 rest ih1 ih2 =>
    simp only [alsetF]
    by_cases h2 : n' = n
    · subst h2
      simp [algetF, Ne.symm h]
    · simp only [if_neg h2]
      by_cases h3 : n' = m <;> simp [algetF, h3, ih2]

theorem continueWalk_err (dest : FSList) (n : String) (r : WalkRes)
    (k : FSList → Registry → WalkRes) (e : String) (h : r.error = some e) :
    continueWalk dest n r k =
      ⟨alsetF dest n (.dir r.dest), r.reg, r.copied, some e⟩ := by
  simp [continueWalk, h]

theorem continueWalk_ok (dest : FSList) (n : String) (r : WalkRes)
    (k : FSList → Registry → WalkRes) (h : r.error = none) :
    continueWalk dest n r k =
      ⟨(k (alsetF dest n (.dir r.dest)) r.reg).dest,
       (k (alsetF dest n (.dir r.dest)) r.reg).reg,
       r.copied ++ (k (alsetF dest n (.dir r.dest)) r.reg).copied,
       (k (alsetF dest n (.dir r.dest)) r.reg).error⟩ := by
  simp [continueWalk, h]

/-- Registry ownership map after a walk: a path carries the fresh
`{kit, updatedAt}` record exactly when this walk copied it, and is untouched
otherwise (lines 127-130 of the source). -/
theorem walk_files_char (isRoot : Bool) (kitId : String) (now : Nat)
    (fails : List String) (es : FSList) :
    ∀ rel dest reg p,
      alget (walkEntries isRoot kitId now fails es rel dest reg).reg.files p =
        if p ∈ (walkEntries isRoot kitId now fails es rel dest reg).copied
        then some ⟨kitId, now⟩ else alget reg.files p := by
  induction es using entriesInduct with
  | h0 => intro rel dest reg p; simp [walkEntries]
  | h1 n c rest ih =>
    intro rel dest reg p
    simp only [walkEntries]
    split
    · exact ih rel dest reg p
    · split
      · exact ih rel dest reg p
      · rw [ih]
        by_cases hpr : p = pathJoin rel n
        · by_cases hp : p ∈ (walkEntries isRoot kitId now fails rest rel
              (alsetF dest n (.file c))
              (recordFile reg kitId now (pathJoin rel n))).copied <;>
            simp [hp, hpr, recordFile, alget_alset_self]
        · by_cases hp : p ∈ (walkEntries isRoot kitId now fails rest rel
              (alsetF dest n (.file c))
              (recordFile reg kitId now (pathJoin rel n))).copied <;>
            simp [hp, hpr, recordFile, alget_alset_ne _ _ _ _ hpr]
  | h2 n es2 rest ih2 ih =>
    intro rel dest reg p
    simp only [walkEntries]
    split
    · exact ih rel dest reg p
    · rcases hd : algetF dest n with _ | t2
      · simp only [hd, walkTree]
        rcases he : (walkEntries isRoot kitId now fails es2 (pathJoin rel n)
            .nil reg).error with _ | e
        · simp only [continueWalk_ok _ _ _ _ he]
          rw [ih, ih2]
          by_cases hp1 : p ∈ (walkEntries isRoot kitId now fails es2
              (pathJoin rel n) .nil reg).copied <;>
            by_cases hp2 : p ∈ (walkEntries isRoot kitId now fails rest rel
              (alsetF dest n (.dir (walkEntries isRoot kitId now fails es2
                (pathJoin rel n) .nil reg).dest))
              (walkEntries isRoot kitId now fails es2 (pathJoin rel n)
                .nil reg).reg).copied <;>
            simp [hp1, hp2, ih2]
        · simp only [continueWalk_err _ _ _ _ _ he]
          exact ih2 (pathJoin rel n) .nil reg p
      · rcases t2 with c2 | d2
        · simp only [hd]
          rcases hb : walkBroken es2 with _ | e

          · simp only [hb]
            exact ih rel dest reg p
          · simp [hb]
        · simp only [hd, walkTree]
          rcases he : (walkEntries isRoot kitId now fails es2 (pathJoin rel n)
              d2 reg).error with _ | e
          · simp only [continueWalk_ok _ _ _ _ he]
            rw [ih, ih2]
            by_cases hp1 : p ∈ (walkEntries isRoot kitId now fails es2
                (pathJoin rel n) d2 reg).copied <;>
              by_cases hp2 : p ∈ (walkEntries isRoot kitId now fails rest rel
                (alsetF dest n (.dir (walkEntries isRoot kitId now fails es2
                  (pathJoin rel n) d2 reg).dest))
                (walkEntries isRoot kitId now fails es2 (pathJoin rel n)
                  d2 reg).reg).copied <;>
              simp [hp1, hp2, ih2]
          · simp only [continueWalk_err _ _ _ _ _ he]
            exact ih2 (pathJoin rel n) d2 reg p


/-- Kits other than the one being merged are never touched by a walk
(`copyRecursive` only writes `registry.kits[kitId]`). -/
theorem walk_kits_ne (isRoot : Bool) (kitId : String) (now : Nat)
    (fails : List String) (es : FSList) :
    ∀ rel dest reg k, k ≠ kitId →
      alget (walkEntries isRoot kitId now fails es rel dest reg).reg.kits k =
        alget reg.kits k := by
  induction es using entriesInduct with
  | h0 => intro rel dest reg k hk; simp [walkEntries]
  | h1 n c rest ih =>
    intro rel dest reg k hk
    simp only [walkEntries]
    split
    · exact ih rel dest reg k hk
    · split
      · exact ih rel dest reg k hk
      · rw [ih _ _ _ _ hk]
        simp [recordFile, alget_updKit_ne _ _ _ _ hk]
  | h2 n es2 rest ih2 ih =>
    intro rel dest reg k hk
    simp only [walkEntries]
    split
    · exact ih rel dest reg k hk
    · rcases hd : algetF dest n with _ | t2
      · simp only [hd, walkTree]
        rcases he : (walkEntries isRoot kitId now fails es2 (pathJoin rel n)
            .nil reg).error with _ | e
        · simp only [continueWalk_ok _ _ _ _ he]
          rw [ih _ _ _ _ hk, ih2 _ _ _ _ hk]
        · simp only [continueWalk_err _ _ _ _ _ he]
          exact ih2 _ _ _ _ hk
      · rcases t2 with c2 | d2
        · simp only [hd]
          rcases hb : walkBroken es2 with _ | e
          · simp only [hb]
            exact ih rel dest reg k hk
          · simp [hb]
        · simp only [hd, walkTree]
          rcases he : (walkEntries isRoot kitId now fails es2 (pathJoin rel n)
              d2 reg).error with _ | e
          · simp only [continueWalk_ok _ _ _ _ he]
            rw [ih _ _ _ _ hk, ih2 _ _ _ _ hk]
          · simp only [continueWalk_err _ _ _ _ _ he]
            exact ih2 _ _ _ _ hk

/-- A kit absent from the registry is not created by the walk alone
(`copyRecursive` updates the kit record but `mergeAgentFolder` is what
creates it). -/
theorem walk_kits_none (isRoot : Bool) (kitId : String) (now : Nat)
    (fails : List String) (es : FSList) :
    ∀ rel dest reg, alget reg.kits kitId = none →
      alget (walkEntries isRoot kitId now fails es rel dest reg).reg.kits
        kitId = none := by
  induction es using entriesInduct with
  | h0 => intro rel dest reg hk; simpa [walkEntries] using hk
  | h1 n c rest ih =>
    intro rel dest reg hk
    simp only [walkEntries]
    split
    · exact ih rel dest reg hk
    · split
      · exact ih rel dest reg hk
      · refine ih _ _ _ ?_
        simp [recordFile, alget_updKit_self, hk]
  | h2 n es2 rest ih2 ih =>
    intro rel dest reg hk
    simp only [walkEntries]
    split
    · exact ih rel dest reg hk
    · rcases hd : algetF dest n with _ | t2
      · simp only [hd, walkTree]
        rcases he : (walkEntries isRoot kitId now fails es2 (pathJoin rel n)
            .nil reg).error with _ | e
        · simp only [continueWalk_ok _ _ _ _ he]
          exact ih _ _ _ (ih2 _ _ _ hk)
        · simp only [continueWalk_err _ _ _ _ _ he]
          exact ih2 _ _ _ hk
      · rcases t2 with c2 | d2
        · simp only [hd]
          rcases hb : walkBroken es2 with _ | e
          · simp only [hb]
            exact ih rel dest reg hk
          · simpa [hb] using hk
        · simp only [hd, walkTree]
          rcases he : (walkEntries isRoot kitId now fails es2 (pathJoin rel n)
              d2 reg).error with _ | e
          · simp only [continueWalk_ok _ _ _ _ he]
            exact ih _ _ _ (ih2 _ _ _ hk)
          · simp only [continueWalk_err _ _ _ _ _ he]
            exact ih2 _ _ _ hk

/-- Effect of a walk on the merged kit record: metadata fields are
untouched, the files list gains exactly the copied paths (appended only if
not already present, line 132), and freedom from duplicates is preserved. -/
theorem walk_kits_self (isRoot : Bool) (kitId : String) (now : Nat)
    (fails : List String) (es : FSList) :
    ∀ rel dest reg ki, alget reg.kits kitId = some ki →
      ∃ ki', alget (walkEntries isRoot kitId now fails es rel dest
          reg).reg.kits kitId = some ki' ∧
        ki'.source = ki.source ∧ ki'.installedAt = ki.installedAt ∧
        ki'.lastUpdated = ki.lastUpdated ∧
        (∀ q, q ∈ ki'.files ↔ q ∈ ki.files ∨
          q ∈ (walkEntries isRoot kitId now fails es rel dest reg).copied) ∧
        (ki.files.Nodup → ki'.files.Nodup) := by
  induction es using entriesInduct with
  | h0 =>
    intro rel dest reg ki hki
    exact ⟨ki, by simpa [walkEntries] using hki, rfl, rfl, rfl,
      by simp [walkEntries], fun h => h⟩
  | h1 n c rest ih =>
    intro rel dest reg ki hki
    simp only [walkEntries]
    split
    · exact ih rel dest reg ki hki
    · split
      · exact ih rel dest reg ki hki
      · have hmid : alget (recordFile reg kitId now (pathJoin rel n)).kits
            kitId = some (if pathJoin rel n ∈ ki.files then ki
              else { ki with files := ki.files ++ [pathJoin rel n] }) := by
          simp [recordFile, alget_updKit_self, hki]
        obtain ⟨ki', hget, hsrc, hinst, hupd, hmem, hnd⟩ :=
          ih rel (alsetF dest n (.file c))
            (recordFile reg kitId now (pathJoin rel n)) _ hmid
        refine ⟨ki', hget, ?_, ?_, ?_, ?_, ?_⟩
        · rw [hsrc]; split <;> rfl
        · rw [hinst]; split <;> rfl
        · rw [hupd]; split <;> rfl
        · intro q
          rw [hmem q]
          by_cases hq : q = pathJoin rel n <;>
            by_cases hqf : pathJoin rel n ∈ ki.files <;>
            simp [hq, hqf] <;> try tauto
        · intro hnod
          refine hnd ?_
          split
          · exact hnod
          · rename_i hnotin
            simp only [List.nodup_append, List.nodup_cons, List.nodup_nil]
            exact ⟨hnod, by simp, by simpa [List.disjoint_singleton] using hnotin⟩
  | h2 n es2 rest ih2 ih =>
    intro rel dest reg ki hki
    simp only [walkEntries]
    split
    · exact ih rel dest reg ki hki
    · rcases hd : algetF dest n with _ | t2
      · simp only [hd, walkTree]
        rcases he : (walkEntries isRoot kitId now fails es2 (pathJoin rel n)
            .nil reg).error with _ | e
        · simp only [continueWalk_ok _ _ _ _ he]
          obtain ⟨ki1, hget1, hsrc1, hinst1, hupd1, hmem1, hnd1⟩ :=
            ih2 (pathJoin rel n) .nil reg ki hki
          obtain ⟨ki', hget, hsrc, hinst, hupd, hmem, hnd⟩ :=
            ih rel _ _ ki1 hget1
          refine ⟨ki', hget, hsrc.trans hsrc1, hinst.trans hinst1,
            hupd.trans hupd1, ?_, fun h => hnd (hnd1 h)⟩
          intro q
          rw [hmem q, hmem1 q]
          simp [List.mem_append]
          tauto
        · simp only [continueWalk_err _ _ _ _ _ he]
          exact ih2 _ _ _ ki hki
      · rcases t2 with c2 | d2
        · simp only [hd]
          rcases hb : walkBroken es2 with _ | e
          · simp only [hb]
            exact ih rel dest reg ki hki
          · exact ⟨ki, by simpa [hb] using hki, rfl, rfl, rfl,
              by simp [hb], fun h => h⟩
        · simp only [hd, walkTree]
          rcases he : (walkEntries isRoot kitId now fails es2 (pathJoin rel n)
              d2 reg).error with _ | e
          · simp only [continueWalk_ok _ _ _ _ he]
            obtain ⟨ki1, hget1, hsrc1, hinst1, hupd1, hmem1, hnd1⟩ :=
              ih2 (pathJoin rel n) d2 reg ki hki
            obtain ⟨ki', hget, hsrc, hinst, hupd, hmem, hnd⟩ :=
              ih rel _ _ ki1 hget1
            refine ⟨ki', hget, hsrc.trans hsrc1, hinst.trans hinst1,
              hupd.trans hupd1, ?_, fun h => hnd (hnd1 h)⟩
            intro q
            rw [hmem q, hmem1 q]
            simp [List.mem_append]
            tauto
          · simp only [continueWalk_err _ _ _ _ _ he]
            exact ih2 _ _ _ ki hki


theorem compatE_nil (es : FSList) : compatE es .nil = true := by
  induction es using entriesInduct with
  | h0 => simp [compatE]
  | h1 n c rest ih => simp [compatE, ih]
  | h2 n es2 rest ih1 ih2 => simp [compatE, algetF, ih2]

theorem compatE_congr (es : FSList) :
    ∀ d d', (∀ n, hasName es n = true → algetF d n = algetF d' n) →
      compatE es d = compatE es d' := by
  induction es using entriesInduct with
  | h0 => intro d d' h; simp [compatE]
  | h1 n c rest ih =>
    intro d d' h
    simp only [compatE]
    exact congrArg _ (ih d d' fun m hm => h m (by simp [hasName, hm]))
  | h2 n es2 rest ih1 ih2 =>
    intro d d' h
    have hn : algetF d n = algetF d' n := h n (by simp [hasName])
    simp only [compatE, hn]
    exact congrArg _ (ih2 d d' fun m hm => h m (by simp [hasName, hm]))

theorem fsWfRoot_cons (n : String) (t : FSTree) (rest : FSList) :
    fsWfRoot (.cons n t rest) = true ↔
      hasName rest n = false ∧ fsWfT t = true ∧ fsWfRoot rest = true := by
  simp [fsWfRoot, namesNodupF, fsWfE]
  tauto

/-- With well-formed source entries and no directory-versus-file collision
on the destination side, a walk never throws, and it copies exactly the
non-excluded files whose copy does not fail — independently of which files
already exist at the destination. -/
theorem walk_exec (isRoot : Bool) (kitId : String) (now : Nat)
    (fails : List String) (es : FSList) :
    ∀ rel dest reg, fsWfRoot es = true → compatE es dest = true →
      (walkEntries isRoot kitId now fails es rel dest reg).error = none ∧
      (walkEntries isRoot kitId now fails es rel dest reg).copied =
        (allFilesE isRoot es rel).filter (fun p => !(decide (p ∈ fails))) := by
  induction es using entriesInduct with
  | h0 => intro rel dest reg hwf hcompat; simp [walkEntries, allFilesE]
  | h1 n c rest ih =>
    intro rel dest reg hwf hcompat
    obtain ⟨hnn, -, hwfrest⟩ := (fsWfRoot_cons n _ rest).mp hwf
    have hcrest : compatE rest dest = true := by
      simp only [compatE] at hcompat
      exact (Bool.and_eq_true _ _ |>.mp hcompat).2
    simp only [walkEntries, allFilesE]
    split
    · exact ih rel dest reg hwfrest hcrest
    · by_cases hfail : pathJoin rel n ∈ fails
      · rw [if_pos hfail]
        obtain ⟨he, hc⟩ := ih rel dest reg hwfrest hcrest
        exact ⟨he, by simp [hfail, hc]⟩
      · rw [if_neg hfail]
        have hcrest2 : compatE rest (alsetF dest n (.file c)) = true := by
          rw [compatE_congr rest _ dest
            (fun m hm => algetF_alsetF_ne dest n m _
              (fun hmn => by rw [hmn] at hm; simp [hm] at hnn))]
          exact hcrest
        obtain ⟨he, hc⟩ := ih rel (alsetF dest n (.file c))
          (recordFile reg kitId now (pathJoin rel n)) hwfrest hcrest2
        exact ⟨he, by simp [hfail, hc]⟩
  | h2 n es2 rest ih2 ih =>
    intro rel dest reg hwf hcompat
    obtain ⟨hnn, hwft, hwfrest⟩ := (fsWfRoot_cons n _ rest).mp hwf
    have hwfes2 : fsWfRoot es2 = true := by
      simpa [fsWfT, fsWfRoot] using hwft
    have hcrest : compatE rest dest = true := by
      simp only [compatE] at hcompat
      exact (Bool.and_eq_true _ _ |>.mp hcompat).2
    simp only [walkEntries, allFilesE]
    split
    · exact ih rel dest reg hwfrest hcrest
    · rcases hd : algetF dest n with _ | t2
      · obtain ⟨he2, hc2⟩ := ih2 (pathJoin rel n) .nil reg hwfes2
          (compatE_nil es2)
        simp only [hd, walkTree]
        simp only [continueWalk_ok _ _ _ _ he2]
        have hcrest2 : compatE rest (alsetF dest n (.dir
            (walkEntries isRoot kitId now fails es2 (pathJoin rel n)
              .nil reg).dest)) = true := by
          rw [compatE_congr rest _ dest
            (fun m hm => algetF_alsetF_ne dest n m _
              (fun hmn => by rw [hmn] at hm; simp [hm] at hnn))]
          exact hcrest
        obtain ⟨he, hc⟩ := ih rel _ _ hwfrest hcrest2
        refine ⟨he, ?_⟩
        rw [hc2, hc, List.filter_append]
        simp [allFilesT]
      · rcases t2 with c2 | d2
        · exfalso
          simp [compatE, hd] at hcompat
        · have hces2 : compatE es2 d2 = true := by
            simp only [compatE, hd] at hcompat
            simpa [compatT] using (Bool.and_eq_true _ _ |>.mp hcompat).1
          obtain ⟨he2, hc2⟩ := ih2 (pathJoin rel n) d2 reg hwfes2 hces2
          simp only [hd, walkTree]
          simp only [continueWalk_ok _ _ _ _ he2]
          have hcrest2 : compatE rest (alsetF dest n (.dir
              (walkEntries isRoot kitId now fails es2 (pathJoin rel n)
                d2 reg).dest)) = true := by
            rw [compatE_congr rest _ dest
              (fun m hm => algetF_alsetF_ne dest n m _
                (fun hmn => by rw [hmn] at hm; simp [hm] at hnn))]
            exact hcrest
          obtain ⟨he, hc⟩ := ih rel _ _ hwfrest hcrest2
          refine ⟨he, ?_⟩
          rw [hc2, hc, List.filter_append]
          simp [allFilesT]


theorem initKit_self (reg : Registry) (repoSource : String) (now : Nat) :
    alget (initKit reg repoSource now).kits (sanitizeKitId repoSource) =
      some (match alget reg.kits (sanitizeKitId repoSource) with
        | some ki => { ki with lastUpdated := now }
        | none => ⟨repoSource, now, now, []⟩) := by
  rcases h : alget reg.kits (sanitizeKitId repoSource) with _ | ki
  · simp [initKit, h, alget_updKit_self, alget_alset_self]
  · simp [initKit, h, alget_updKit_self]

theorem initKit_ne (reg : Registry) (repoSource : String) (now : Nat)
    (k : String) (hk : k ≠ sanitizeKitId repoSource) :
    alget (initKit reg repoSource now).kits k = alget reg.kits k := by
  rcases h : alget reg.kits (sanitizeKitId repoSource) with _ | ki
  · simp [initKit, h, alget_updKit_ne _ _ _ _ hk, alget_alset_ne _ _ _ _ hk]
  · simp [initKit, h, alget_updKit_ne _ _ _ _ hk]

theorem initKit_files (reg : Registry) (repoSource : String) (now : Nat) :
    (initKit reg repoSource now).files = reg.files := by
  rcases h : alget reg.kits (sanitizeKitId repoSource) with _ | ki <;>
    simp [initKit, h]

/-- Bundled facts about one successful `mergeAgentFolder` resolution core:
the registry file on disk afterwards is exactly the in-memory registry
(`saveRegistry`, line 153); every copied path carries fresh ownership;
other kits are untouched; and the merged kit record keeps `source` and
`installedAt`, stamps `lastUpdated`, and absorbs the copied paths without
duplication. -/
theorem mergeFrom_facts (src : FSTree) (isRoot : Bool) (s : Store)
    (repoSource : String) (now : Nat) (fails : List String)
    (hok : (mergeFrom src isRoot s repoSource now fails).error = none) :
    (mergeFrom src isRoot s repoSource now fails).store.registryFile =
      some (mergeFrom src isRoot s repoSource now fails).memRegistry ∧
    (∀ p ∈ (mergeFrom src isRoot s repoSource now fails).copied,
      alget (mergeFrom src isRoot s repoSource now fails).memRegistry.files p =
        some ⟨sanitizeKitId repoSource, now⟩) ∧
    (∀ k, k ≠ sanitizeKitId repoSource →
      alget (mergeFrom src isRoot s repoSource now fails).memRegistry.kits k =
        alget (loadRegistry s).kits k) ∧
    (∀ ki, alget (loadRegistry s).kits (sanitizeKitId repoSource) = some ki →
      ∃ ki', alget (mergeFrom src isRoot s repoSource now
          fails).memRegistry.kits (sanitizeKitId repoSource) = some ki' ∧
        ki'.source = ki.source ∧ ki'.installedAt = ki.installedAt ∧
        ki'.lastUpdated = now ∧
        (∀ q, q ∈ ki'.files ↔ q ∈ ki.files ∨
          q ∈ (mergeFrom src isRoot s repoSource now fails).copied) ∧
        (ki.files.Nodup → ki'.files.Nodup)) ∧
    (alget (loadRegistry s).kits (sanitizeKitId repoSource) = none →
      ∃ ki', alget (mergeFrom src isRoot s repoSource now
          fails).memRegistry.kits (sanitizeKitId repoSource) = some ki' ∧
        ki'.source = repoSource ∧ ki'.installedAt = now ∧
        ki'.lastUpdated = now ∧
        (∀ q, q ∈ ki'.files ↔
          q ∈ (mergeFrom src isRoot s repoSource now fails).copied) ∧
        ki'.files.Nodup) := by
  rcases src with c | es
  · exfalso
    simp [mergeFrom, walkTree] at hok
  · have he : (walkEntries isRoot (sanitizeKitId repoSource) now fails es ""
        (s.tree.getD .nil) (initKit (loadRegistry s) repoSource now)).error =
        none := by
      rcases he2 : (walkEntries isRoot (sanitizeKitId repoSource) now fails
          es "" (s.tree.getD .nil)
          (initKit (loadRegistry s) repoSource now)).error with _ | e
      · rfl
      · exfalso
        simp only [mergeFrom, walkTree] at hok
        rw [he2] at hok
        simp at hok
    simp only [mergeFrom, walkTree]
    rw [he]
    simp only []
    refine ⟨by simp, ?_, ?_, ?_, ?_⟩
    · intro p hp
      rw [walk_files_char]
      simp [hp]
    · intro k hk
      rw [walk_kits_ne _ _ _ _ _ _ _ _ _ hk, initKit_ne _ _ _ _ hk]
    · intro ki hki
      obtain ⟨ki', hget, hsrc, hinst, hupd, hmem, hnd⟩ :=
        walk_kits_self isRoot (sanitizeKitId repoSource) now fails es ""
          (s.tree.getD .nil) (initKit (loadRegistry s) repoSource now)
          { ki with lastUpdated := now } (by rw [initKit_self, hki])
      exact ⟨ki', hget, hsrc, hinst, hupd, hmem, hnd⟩
    · intro hki
      obtain ⟨ki', hget, hsrc, hinst, hupd, hmem, hnd⟩ :=
        walk_kits_self isRoot (sanitizeKitId repoSource) now fails es ""
          (s.tree.getD .nil) (initKit (loadRegistry s) repoSource now)
          ⟨repoSource, now, now, []⟩ (by rw [initKit_self, hki])
      refine ⟨ki', hget, hsrc, hinst, hupd, ?_, hnd (by simp)⟩
      intro q
      rw [hmem q]
      simp

/-- The facts of `mergeFrom_facts` lifted to a full `mergeAgentFolder`
call that ended without an uncaught exception. -/
theorem merge_facts (tempDir : FSList) (s : Store) (repoSource : String)
    (now : Nat) (fails : List String)
    (hok : (mergeAgentFolder tempDir s repoSource now fails).error = none) :
    (mergeAgentFolder tempDir s repoSource now fails).store.registryFile =
      some (mergeAgentFolder tempDir s repoSource now fails).memRegistry ∧
    (∀ p ∈ (mergeAgentFolder tempDir s repoSource now fails).copied,
      alget (mergeAgentFolder tempDir s repoSource now
        fails).memRegistry.files p = some ⟨sanitizeKitId repoSource, now⟩) ∧
    (∀ k, k ≠ sanitizeKitId repoSource →
      alget (mergeAgentFolder tempDir s repoSource now
        fails).memRegistry.kits k = alget (loadRegistry s).kits k) ∧
    (∀ ki, alget (loadRegistry s).kits (sanitizeKitId repoSource) = some ki →
      ∃ ki', alget (mergeAgentFolder tempDir s repoSource now
          fails).memRegistry.kits (sanitizeKitId repoSource) = some ki' ∧
        ki'.source = ki.source ∧ ki'.installedAt = ki.installedAt ∧
        ki'.lastUpdated = now ∧
        (∀ q, q ∈ ki'.files ↔ q ∈ ki.files ∨
          q ∈ (mergeAgentFolder tempDir s repoSource now fails).copied) ∧
        (ki.files.Nodup → ki'.files.Nodup)) ∧
    (alget (loadRegistry s).kits (sanitizeKitId repoSource) = none →
      ∃ ki', alget (mergeAgentFolder tempDir s repoSource now
          fails).memRegistry.kits (sanitizeKitId repoSource) = some ki' ∧
        ki'.source = repoSource ∧ ki'.installedAt = now ∧
        ki'.lastUpdated = now ∧
        (∀ q, q ∈ ki'.files ↔
          q ∈ (mergeAgentFolder tempDir s repoSource now fails).copied) ∧
        ki'.files.Nodup) := by
  rcases ha : algetF tempDir ".agent" with _ | t
  · by_cases hc : commonFolders.any (fun f => (algetF tempDir f).isSome)
    · simp only [mergeAgentFolder, ha, hc, if_true]
      exact mergeFrom_facts _ _ _ _ _ _
        (by simpa only [mergeAgentFolder, ha, hc, if_true] using hok)
    · exfalso
      simp [mergeAgentFolder, ha, hc] at hok
  · simp only [mergeAgentFolder, ha]
    exact mergeFrom_facts _ _ _ _ _ _
      (by simpa only [mergeAgentFolder, ha] using hok)


theorem loadRegistry_wf (s : Store) (hwf : StoreWF s) :
    RegistryWF (loadRegistry s) := by
  rcases hs : s.registryFile with _ | reg
  · intro k ki hki
    simp [loadRegistry, hs, alget] at hki
  · simpa [loadRegistry, hs] using hwf reg hs

theorem mergeFrom_wf (src : FSTree) (isRoot : Bool) (s : Store)
    (repoSource : String) (now : Nat) (fails : List String)
    (hwf : StoreWF s) :
    StoreWF (mergeFrom src isRoot s repoSource now fails).store := by
  rcases src with c | es
  · simp only [mergeFrom, walkTree]
    intro r hr
    exact hwf r hr
  · rcases he : (walkEntries isRoot (sanitizeKitId repoSource) now fails es ""
        (s.tree.getD .nil) (initKit (loadRegistry s) repoSource now)).error
        with _ | e
    · simp only [mergeFrom, walkTree]
      rw [he]
      intro r hr
      simp only [] at hr
      obtain rfl := (Option.some_inj.mp hr).symm
      intro k ki hki
      by_cases hk : k = sanitizeKitId repoSource
      · subst hk
        rcases h0 : alget (loadRegistry s).kits (sanitizeKitId repoSource)
            with _ | ki0
        · obtain ⟨ki', hget, -, -, -, -, hnd⟩ :=
            walk_kits_self isRoot (sanitizeKitId repoSource) now fails es ""
              (s.tree.getD .nil) (initKit (loadRegistry s) repoSource now)
              ⟨repoSource, now, now, []⟩ (by rw [initKit_self, h0])
          rw [hget] at hki
          obtain rfl := Option.some_inj.mp hki
          exact hnd (by simp)
        · obtain ⟨ki', hget, -, -, -, -, hnd⟩ :=
            walk_kits_self isRoot (sanitizeKitId repoSource) now fails es ""
              (s.tree.getD .nil) (initKit (loadRegistry s) repoSource now)
              { ki0 with lastUpdated := now } (by rw [initKit_self, h0])
          rw [hget] at hki
          obtain rfl := Option.some_inj.mp hki
          exact hnd (loadRegistry_wf s hwf _ ki0 h0)
      · rw [walk_kits_ne _ _ _ _ _ _ _ _ _ hk, initKit_ne _ _ _ _ hk] at hki
        exact loadRegistry_wf s hwf k ki hki
    · simp only [mergeFrom, walkTree]
      rw [he]
      intro r hr
      simp only [] at hr
      exact hwf r hr

/-- One merge call — whatever its outcome — preserves well-formedness of the
persisted registry (in particular, freedom from duplicates in every kit's
files list). -/
theorem merge_wf (tempDir : FSList) (s : Store) (repoSource : String)
    (now : Nat) (fails : List String) (hwf : StoreWF s) :
    StoreWF (mergeAgentFolder tempDir s repoSource now fails).store := by
  rcases ha : algetF tempDir ".agent" with _ | t
  · by_cases hc : commonFolders.any (fun f => (algetF tempDir f).isSome)
    · simp only [mergeAgentFolder, ha, hc, if_true]
      exact mergeFrom_wf _ _ _ _ _ _ hwf
    · simp only [mergeAgentFolder, ha, hc]
      simpa using hwf
  · simp only [mergeAgentFolder, ha]
    exact mergeFrom_wf _ _ _ _ _ _ hwf

theorem runMerges_wf (calls : List MergeCall) :
    ∀ s, StoreWF s → StoreWF (runMerges s calls) := by
  induction calls with
  | nil => intro s hwf; simpa [runMerges] using hwf
  | cons c cs ih =>
    intro s hwf
    simp only [runMerges]
    exact ih _ (merge_wf _ _ _ _ _ hwf)


/-- C3: merging a source directory that contains neither the conventional
`.agent` subfolder nor any of the conventional top-level folder names
(skills, workflows, rules, scripts, docs, assets) fails with the structural
"no recognizable content" error and performs no copies: the destination
directory and the persisted registry are left unchanged. -/
theorem C3_structural_failure (temp : FSList) (s : Store) (repoSource : String)
    (now : Nat) (fails : List String)
    (ha : algetF temp ".agent" = none)
    (hc : commonFolders.any (fun f => (algetF temp f).isSome) = false) :
    (mergeAgentFolder temp s repoSource now fails).store = s ∧
    (mergeAgentFolder temp s repoSource now fails).copied = [] ∧
    (mergeAgentFolder temp s repoSource now fails).error =
      some "Could not find .agent folder or common agent folders (skills, workflows, scripts) in source repository!" := by
  simp [mergeAgentFolder, ha, hc]

theorem C3_structural_failure_witness :
    (algetF (entries [("stuff", .file "x")]) ".agent" = none ∧
     commonFolders.any
       (fun f => (algetF (entries [("stuff", .file "x")]) f).isSome) = false) ∧
    (mergeAgentFolder (entries [("stuff", .file "x")]) ⟨none, none⟩ "k" 0
      []).store = ⟨none, none⟩ ∧
    (mergeAgentFolder (entries [("stuff", .file "x")]) ⟨none, none⟩ "k" 0
      []).copied = [] ∧
    (mergeAgentFolder (entries [("stuff", .file "x")]) ⟨none, none⟩ "k" 0
      []).error =
      some "Could not find .agent folder or common agent folders (skills, workflows, scripts) in source repository!" :=
  ⟨⟨by rfl, by decide⟩,
   C3_structural_failure (entries [("stuff", .file "x")]) ⟨none, none⟩ "k" 0 []
     (by rfl) (by decide)⟩

/-- C5: the claim asserts that a skill folder whose marker file carries any
letter-casing of `SKILL.md` is both recognized and successfully read.  The
code detects the marker case-insensitively (line 177) but then reads the
literal name `SKILL.md` (line 180), so on a case-sensitive file system a
folder holding `skill.md` is recognized as a skill and the subsequent
`readFileSync` throws `ENOENT`, crashing the whole index generation. -/
theorem C5_lowercase_marker_crashes :
    hasSkillMd (entries [("skill.md", .file "---\nname: D\n---")]) = true ∧
    generateSkillsIndex (entries [("skills", .dir (entries [("demo",
      .dir (entries [("skill.md", .file "---\nname: D\n---")]))]))]) =
      .crashed "ENOENT" := by
  constructor
  · decide
  · decide

/-- C8: the claim predicts three index entries (two nested ones under the
category folder's name and a top-level one under the default category).  The
code instead visits every direct child of `skills/` with `parentCategory`
already set to the child's own name, so the top-level skill is indexed with
its own folder name as category (and a doubled path), while the category
folder is never descended into (the `if (!parentCategory)` guard, line 213)
and its two skills are silently dropped: the index has exactly one entry. -/
theorem C8_category_discovery_broken :
    generateSkillsIndex (entries [("skills", .dir (entries
      [("solo", .dir (entries [("SKILL.md", .file "hello")])),
       ("cat", .dir (entries
         [("alpha", .dir (entries [("SKILL.md", .file "hello")])),
          ("beta", .dir (entries [("SKILL.md", .file "hello")]))]))]))]) =
      .written [⟨"solo", ".agent/skills/solo/solo", "solo", "solo", "",
        "low", "local"⟩] ∧
    [(⟨"solo", ".agent/skills/solo/solo", "solo", "solo", "", "low",
      "local"⟩ : Skill)].length = 1 := by
  constructor
  · decide
  · decide

/-- C9: a marker file opening with a frontmatter block that contains
`name: Foo` and `description: Bar` yields an entry named "Foo" with
description "Bar" (first matching line wins, values trimmed); a marker file
with no frontmatter block yields the folder name and an empty
description. -/
theorem C9_frontmatter_extraction (d pc : String) :
    processDir (.dir (entries [("SKILL.md",
        .file "---\nname:  Foo\ndescription: Bar \n---\nbody")])) d pc =
      .ok [⟨slugify d, skillPath pc d, if pc = "" then "general" else pc,
        "Foo", "Bar", "low", "local"⟩] ∧
    processDir (.dir (entries [("SKILL.md",
        .file "---\nname: First\nname: Second\n---")])) d pc =
      .ok [⟨slugify d, skillPath pc d, if pc = "" then "general" else pc,
        "First", "", "low", "local"⟩] ∧
    processDir (.dir (entries [("SKILL.md", .file "plain text only")])) d pc =
      .ok [⟨slugify d, skillPath pc d, if pc = "" then "general" else pc,
        d, "", "low", "local"⟩] := by
  refine ⟨rfl, rfl, rfl⟩


theorem mergeFrom_err_registry (src : FSTree) (isRoot : Bool) (s : Store)
    (repoSource : String) (now : Nat) (fails : List String)
    (herr : (mergeFrom src isRoot s repoSource now fails).error ≠ none) :
    (mergeFrom src isRoot s repoSource now fails).store.registryFile =
      s.registryFile := by
  rcases src with c | es
  · simp [mergeFrom, walkTree]
  · rcases he : (walkEntries isRoot (sanitizeKitId repoSource) now fails es ""
        (s.tree.getD .nil) (initKit (loadRegistry s) repoSource now)).error
        with _ | e
    · exfalso
      apply herr
      simp only [mergeFrom, walkTree]
      rw [he]
    · simp only [mergeFrom, walkTree]
      rw [he]

/-- C1 counterexample: the claim says `mergeAgentFolder` never writes the
registry file itself.  Merging a kit into a store whose registry file does
not yet exist ends with a registry file on disk, written by the merge call
itself (`saveRegistry`, line 153) with no caller-side save involved. -/
theorem C1_counterexample :
    (mergeAgentFolder (entries [(".agent", .dir (entries
        [("a.md", .file "x")]))]) ⟨none, none⟩ "kit" 0 []).store.registryFile ≠
      (⟨none, none⟩ : Store).registryFile := by
  decide

/-- C1 amended: each `mergeAgentFolder` call loads the registry from disk at
its start and, when no uncaught exception escapes the walk, saves the
updated in-memory registry back to disk itself at the end of the call
(line 153); when an exception escapes, the registry file is left as it was.
Persistence therefore happens once per merge call, not through a separate
caller-performed save after the loop. -/
theorem C1_merge_persists_registry (tempDir : FSList) (s : Store)
    (repoSource : String) (now : Nat) (fails : List String) :
    ((mergeAgentFolder tempDir s repoSource now fails).error = none →
      (mergeAgentFolder tempDir s repoSource now fails).store.registryFile =
        some (mergeAgentFolder tempDir s repoSource now fails).memRegistry) ∧
    ((mergeAgentFolder tempDir s repoSource now fails).error ≠ none →
      (mergeAgentFolder tempDir s repoSource now fails).store.registryFile =
        s.registryFile) := by
  constructor
  · intro hok
    exact (merge_facts tempDir s repoSource now fails hok).1
  · intro herr
    rcases ha : algetF tempDir ".agent" with _ | t
    · by_cases hc : commonFolders.any (fun f => (algetF tempDir f).isSome)
      · simp only [mergeAgentFolder, ha, hc, if_true]
        exact mergeFrom_err_registry _ _ _ _ _ _
          (by simpa only [mergeAgentFolder, ha, hc, if_true] using herr)
      · simp [mergeAgentFolder, ha, hc]
    · simp only [mergeAgentFolder, ha]
      exact mergeFrom_err_registry _ _ _ _ _ _
        (by simpa only [mergeAgentFolder, ha] using herr)

theorem C1_merge_persists_registry_witness :
    ((mergeAgentFolder (entries [(".agent", .dir (entries
        [("a.md", .file "x")]))]) ⟨none, none⟩ "kit" 0 []).store.registryFile =
      some (mergeAgentFolder (entries [(".agent", .dir (entries
        [("a.md", .file "x")]))]) ⟨none, none⟩ "kit" 0 []).memRegistry) ∧
    ((mergeAgentFolder (entries [("stuff", .file "x")]) ⟨none, none⟩ "kit" 0
        []).store.registryFile = (⟨none, none⟩ : Store).registryFile) :=
  ⟨(C1_merge_persists_registry (entries [(".agent", .dir (entries
      [("a.md", .file "x")]))]) ⟨none, none⟩ "kit" 0 []).1 (by decide),
   (C1_merge_persists_registry (entries [("stuff", .file "x")]) ⟨none, none⟩
      "kit" 0 []).2 (by decide)⟩

/-- C4 counterexample: the claim says that with no `skills` subdirectory the
index generation produces an empty array that replaces any prior index.  The
code returns early with only a warning (lines 166-169), so a prior index
file survives untouched instead of being replaced by `[]`. -/
theorem C4_counterexample :
    generateSkillsIndex (entries [("x", .file "y")]) = .skipped ∧
    indexFileAfter (some [⟨"a", "b", "c", "d", "e", "f", "g"⟩])
        (entries [("x", .file "y")]) =
      some [⟨"a", "b", "c", "d", "e", "f", "g"⟩] ∧
    some [(⟨"a", "b", "c", "d", "e", "f", "g"⟩ : Skill)] ≠
      some ([] : List Skill) := by
  refine ⟨by decide, by decide, by decide⟩

/-- C4 amended: whenever the `skills` subdirectory exists and indexing
completes without an uncaught exception, the index file is fully overwritten
with the freshly built array, independently of any prior contents (no
merging); when no `skills` subdirectory exists, the outcome is only a
warning (not an error) and the index file is left untouched. -/
theorem C4_index_overwrite (target : FSList) (prior : Option (List Skill)) :
    (algetF target "skills" = none →
      generateSkillsIndex target = .skipped ∧
      indexFileAfter prior target = prior) ∧
    (∀ s, generateSkillsIndex target = .written s →
      indexFileAfter prior target = some s) := by
  constructor
  · intro h
    constructor
    · simp [generateSkillsIndex, h]
    · simp [indexFileAfter, generateSkillsIndex, h]
  · intro s hs
    simp [indexFileAfter, hs]

theorem C4_index_overwrite_witness :
    (generateSkillsIndex (entries [("x", .file "y")]) = .skipped ∧
     indexFileAfter (some [⟨"a", "b", "c", "d", "e", "f", "g"⟩])
       (entries [("x", .file "y")]) =
       some [⟨"a", "b", "c", "d", "e", "f", "g"⟩]) ∧
    indexFileAfter (some [⟨"a", "b", "c", "d", "e", "f", "g"⟩])
        (entries [("skills", .dir (entries [("solo",
          .dir (entries [("SKILL.md", .file "hi")]))]))]) =
      some [⟨"solo", ".agent/skills/solo/solo", "solo", "solo", "", "low",
        "local"⟩] :=
  ⟨(C4_index_overwrite (entries [("x", .file "y")])
      (some [⟨"a", "b", "c", "d", "e", "f", "g"⟩])).1 (by rfl),
   (C4_index_overwrite (entries [("skills", .dir (entries [("solo",
        .dir (entries [("SKILL.md", .file "hi")]))]))])
      (some [⟨"a", "b", "c", "d", "e", "f", "g"⟩])).2
     [⟨"solo", ".agent/skills/solo/solo", "solo", "solo", "", "low",
       "local"⟩] (by decide)⟩


theorem sameShape_map (l1 : List Char) :
    ∀ l2, sameShape l1 l2 = true →
      l1.map (fun c => if isAlnumChar c then c else '_') =
        l2.map (fun c => if isAlnumChar c then c else '_') := by
  induction l1 with
  | nil => intro l2 h; cases l2 <;> simp_all [sameShape]
  | cons c1 r1 ih =>
    intro l2 h
    cases l2 with
    | nil => simp [sameShape] at h
    | cons c2 r2 =>
      simp only [sameShape, Bool.and_eq_true, Bool.or_eq_true] at h
      obtain ⟨hhead, htail⟩ := h
      simp only [List.map_cons]
      rw [ih r2 htail]
      rcases hhead with ⟨ha, heq⟩ | ⟨hna1, hna2⟩
      · obtain rfl := of_decide_eq_true heq
        rfl
      · simp only [Bool.not_eq_true'] at hna1 hna2
        simp [hna1, hna2]

theorem sanitize_sameShape (s1 s2 : String)
    (h : sameShape s1.data s2.data = true) :
    sanitizeKitId s1 = sanitizeKitId s2 := by
  simp only [sanitizeKitId]
  rw [sameShape_map _ _ h]

/-- C6: with well-formed source entries and no directory-versus-file
collision at the destination, a `copyRecursive` walk never aborts whatever
the set of failing copies is (failures are swallowed and the remaining
entries are still processed); the copied paths are exactly the non-excluded
files whose copy did not fail (independently of what already existed at the
destination), and a path is recorded in the registry — fresh ownership stamp
plus membership in the kit's files list — exactly when its copy
succeeded. -/
theorem C6_copy_failure_policy (isRoot : Bool) (kitId : String) (now : Nat)
    (fails : List String) (es : FSList) (rel : String) (dest : FSList)
    (reg : Registry)
    (hwf : fsWfRoot es = true) (hcompat : compatE es dest = true) :
    (walkEntries isRoot kitId now fails es rel dest reg).error = none ∧
    (walkEntries isRoot kitId now fails es rel dest reg).copied =
      (allFilesE isRoot es rel).filter (fun p => !(decide (p ∈ fails))) ∧
    (∀ p ∈ (walkEntries isRoot kitId now fails es rel dest reg).copied,
      alget (walkEntries isRoot kitId now fails es rel dest reg).reg.files p =
        some ⟨kitId, now⟩) ∧
    (∀ p, p ∉ (walkEntries isRoot kitId now fails es rel dest reg).copied →
      alget (walkEntries isRoot kitId now fails es rel dest reg).reg.files p =
        alget reg.files p) ∧
    (∀ ki, alget reg.kits kitId = some ki →
      ∀ p ∈ (walkEntries isRoot kitId now fails es rel dest reg).copied,
        ∃ ki', alget (walkEntries isRoot kitId now fails es rel dest
          reg).reg.kits kitId = some ki' ∧ p ∈ ki'.files) := by
  obtain ⟨he, hc⟩ := walk_exec isRoot kitId now fails es rel dest reg hwf hcompat
  refine ⟨he, hc, ?_, ?_, ?_⟩
  · intro p hp
    rw [walk_files_char]
    simp [hp]
  · intro p hp
    rw [walk_files_char]
    simp [hp]
  · intro ki hki p hp
    obtain ⟨ki', hget, -, -, -, hmem, -⟩ :=
      walk_kits_self isRoot kitId now fails es rel dest reg ki hki
    exact ⟨ki', hget, (hmem p).mpr (Or.inr hp)⟩

theorem C6_copy_failure_policy_witness :
    (fsWfRoot (entries [("a.md", .file "x"),
        ("sub", .dir (entries [("b.md", .file "y")]))]) = true ∧
     compatE (entries [("a.md", .file "x"),
        ("sub", .dir (entries [("b.md", .file "y")]))]) .nil = true) ∧
    (walkEntries false "kit" 0 ["sub/b.md"]
        (entries [("a.md", .file "x"),
          ("sub", .dir (entries [("b.md", .file "y")]))]) "" .nil
        ⟨[("kit", ⟨"kit", 0, 0, []⟩)], []⟩).error = none ∧
    (walkEntries false "kit" 0 ["sub/b.md"]
        (entries [("a.md", .file "x"),
          ("sub", .dir (entries [("b.md", .file "y")]))]) "" .nil
        ⟨[("kit", ⟨"kit", 0, 0, []⟩)], []⟩).copied =
      (allFilesE false (entries [("a.md", .file "x"),
          ("sub", .dir (entries [("b.md", .file "y")]))]) "").filter
        (fun p => !(decide (p ∈ (["sub/b.md"] : List String)))) :=
  ⟨⟨by decide, by decide⟩,
   (C6_copy_failure_policy false "kit" 0 ["sub/b.md"]
      (entries [("a.md", .file "x"),
        ("sub", .dir (entries [("b.md", .file "y")]))]) "" .nil
      ⟨[("kit", ⟨"kit", 0, 0, []⟩)], []⟩ (by decide) (by decide)).1,
   (C6_copy_failure_policy false "kit" 0 ["sub/b.md"]
      (entries [("a.md", .file "x"),
        ("sub", .dir (entries [("b.md", .file "y")]))]) "" .nil
      ⟨[("kit", ⟨"kit", 0, 0, []⟩)], []⟩ (by decide) (by decide)).2.1⟩

/-- C7: starting from a well-formed store (in particular a fresh one with no
registry file), after any sequence of merge calls every kit's files list in
the persisted registry is free of duplicates: re-running a merge for the
same kit identifier never duplicates a path in its files list. -/
theorem C7_no_duplicate_paths (s : Store) (calls : List MergeCall)
    (hwf : StoreWF s) :
    ∀ reg, (runMerges s calls).registryFile = some reg →
      ∀ k ki, alget reg.kits k = some ki → ki.files.Nodup :=
  fun reg hreg k ki hki => runMerges_wf calls s hwf reg hreg k ki hki

theorem C7_no_duplicate_paths_witness :
    ((runMerges ⟨none, none⟩ [⟨demoAgentA, "kit", 0, []⟩,
        ⟨demoAgentA, "kit", 1, []⟩]).registryFile =
      some ⟨[("kit", ⟨"kit", 0, 1, ["a.md"]⟩)], [("a.md", ⟨"kit", 1⟩)]⟩ ∧
     alget (⟨[("kit", ⟨"kit", 0, 1, ["a.md"]⟩)],
        [("a.md", ⟨"kit", 1⟩)]⟩ : Registry).kits "kit" =
       some ⟨"kit", 0, 1, ["a.md"]⟩) ∧
    (["a.md"] : List String).Nodup :=
  ⟨⟨by decide, by decide⟩,
   C7_no_duplicate_paths ⟨none, none⟩
     [⟨demoAgentA, "kit", 0, []⟩, ⟨demoAgentA, "kit", 1, []⟩]
     (fun r hr => Option.noConfusion hr)
     ⟨[("kit", ⟨"kit", 0, 1, ["a.md"]⟩)], [("a.md", ⟨"kit", 1⟩)]⟩ (by decide)
     "kit" ⟨"kit", 0, 1, ["a.md"]⟩ (by decide)⟩

/-- C2: if two successive merges with different kit identifiers both
successfully copy the same relative path, the persisted registry afterwards
assigns ownership of that path to the second kit with the second merge's
timestamp (last-writer-wins, no conflict handling), while both kits' files
lists still contain the path. -/
theorem C2_last_writer_wins (temp1 temp2 : FSList) (s : Store)
    (src1 src2 P : String) (t1 t2 : Nat) (f1 f2 : List String)
    (h1 : (mergeAgentFolder temp1 s src1 t1 f1).error = none)
    (h2 : (mergeAgentFolder temp2 (mergeAgentFolder temp1 s src1 t1 f1).store
      src2 t2 f2).error = none)
    (hP1 : P ∈ (mergeAgentFolder temp1 s src1 t1 f1).copied)
    (hP2 : P ∈ (mergeAgentFolder temp2 (mergeAgentFolder temp1 s src1 t1
      f1).store src2 t2 f2).copied)
    (hne : sanitizeKitId src1 ≠ sanitizeKitId src2) :
    ∃ reg, (mergeAgentFolder temp2 (mergeAgentFolder temp1 s src1 t1 f1).store
        src2 t2 f2).store.registryFile = some reg ∧
      alget reg.files P = some ⟨sanitizeKitId src2, t2⟩ ∧
      (∃ kiA, alget reg.kits (sanitizeKitId src1) = some kiA ∧
        P ∈ kiA.files) ∧
      (∃ kiB, alget reg.kits (sanitizeKitId src2) = some kiB ∧
        P ∈ kiB.files) := by
  obtain ⟨hsave1, hfiles1, hkne1, hkself1, hknew1⟩ :=
    merge_facts temp1 s src1 t1 f1 h1
  obtain ⟨hsave2, hfiles2, hkne2, hkself2, hknew2⟩ :=
    merge_facts temp2 _ src2 t2 f2 h2
  have hload2 : loadRegistry (mergeAgentFolder temp1 s src1 t1 f1).store =
      (mergeAgentFolder temp1 s src1 t1 f1).memRegistry := by
    simp [loadRegistry, hsave1]
  refine ⟨_, hsave2, hfiles2 P hP2, ?_, ?_⟩
  · have hA1 : ∃ kiA, alget (mergeAgentFolder temp1 s src1 t1
        f1).memRegistry.kits (sanitizeKitId src1) = some kiA ∧
        P ∈ kiA.files := by
      rcases h0 : alget (loadRegistry s).kits (sanitizeKitId src1) with _ | ki0
      · obtain ⟨ki', hget, -, -, -, hmem, -⟩ := hknew1 h0
        exact ⟨ki', hget, (hmem P).mpr hP1⟩
      · obtain ⟨ki', hget, -, -, -, hmem, -⟩ := hkself1 ki0 h0
        exact ⟨ki', hget, (hmem P).mpr (Or.inr hP1)⟩
    obtain ⟨kiA, hgetA, hPA⟩ := hA1
    refine ⟨kiA, ?_, hPA⟩
    rw [hkne2 _ hne, hload2]
    exact hgetA
  · rcases h0 : alget (loadRegistry (mergeAgentFolder temp1 s src1 t1
        f1).store).kits (sanitizeKitId src2) with _ | ki0
    · obtain ⟨ki', hget, -, -, -, hmem, -⟩ := hknew2 h0
      exact ⟨ki', hget, (hmem P).mpr hP2⟩
    · obtain ⟨ki', hget, -, -, -, hmem, -⟩ := hkself2 ki0 h0
      exact ⟨ki', hget, (hmem P).mpr (Or.inr hP2)⟩

theorem C2_last_writer_wins_witness :
    ((mergeAgentFolder demoAgentA ⟨none, none⟩ "kitA" 0 []).error = none ∧
     (mergeAgentFolder demoAgentA (mergeAgentFolder demoAgentA ⟨none, none⟩
        "kitA" 0 []).store "kitB" 1 []).error = none ∧
     "a.md" ∈ (mergeAgentFolder demoAgentA ⟨none, none⟩ "kitA" 0 []).copied ∧
     "a.md" ∈ (mergeAgentFolder demoAgentA (mergeAgentFolder demoAgentA
        ⟨none, none⟩ "kitA" 0 []).store "kitB" 1 []).copied ∧
     sanitizeKitId "kitA" ≠ sanitizeKitId "kitB") ∧
    (∃ reg, (mergeAgentFolder demoAgentA (mergeAgentFolder demoAgentA
          ⟨none, none⟩ "kitA" 0 []).store "kitB" 1 []).store.registryFile =
        some reg ∧
      alget reg.files "a.md" = some ⟨sanitizeKitId "kitB", 1⟩ ∧
      (∃ kiA, alget reg.kits (sanitizeKitId "kitA") = some kiA ∧
        "a.md" ∈ kiA.files) ∧
      (∃ kiB, alget reg.kits (sanitizeKitId "kitB") = some kiB ∧
        "a.md" ∈ kiB.files)) :=
  ⟨⟨by decide, by decide, by decide, by decide, by decide⟩,
   C2_last_writer_wins demoAgentA demoAgentA ⟨none, none⟩ "kitA" "kitB"
     "a.md" 0 1 [] [] (by decide) (by decide) (by decide) (by decide)
     (by decide)⟩

/-- C10: the kit identifier replaces every non-alphanumeric character with
an underscore, so two distinct sources that differ only in their
non-alphanumeric characters share one registry entry: a merge of the second
source reuses the entry created by the first, keeps its `source` and
`installedAt` as written by the first merge, stamps `lastUpdated` with the
second merge's time, and appends its copied paths into the shared files
list. -/
theorem C10_kit_identity_collision (temp1 temp2 : FSList) (st : Store)
    (s1 s2 : String) (t1 t2 : Nat) (f1 f2 : List String)
    (hshape : sameShape s1.data s2.data = true)
    (hfresh : alget (loadRegistry st).kits (sanitizeKitId s1) = none)
    (h1 : (mergeAgentFolder temp1 st s1 t1 f1).error = none)
    (h2 : (mergeAgentFolder temp2 (mergeAgentFolder temp1 st s1 t1 f1).store
      s2 t2 f2).error = none) :
    sanitizeKitId s1 = sanitizeKitId s2 ∧
    ∃ reg ki, (mergeAgentFolder temp2 (mergeAgentFolder temp1 st s1 t1
        f1).store s2 t2 f2).store.registryFile = some reg ∧
      alget reg.kits (sanitizeKitId s1) = some ki ∧
      ki.source = s1 ∧ ki.installedAt = t1 ∧ ki.lastUpdated = t2 ∧
      (∀ p ∈ (mergeAgentFolder temp1 st s1 t1 f1).copied, p ∈ ki.files) ∧
      (∀ p ∈ (mergeAgentFolder temp2 (mergeAgentFolder temp1 st s1 t1
        f1).store s2 t2 f2).copied, p ∈ ki.files) := by
  have hsan := sanitize_sameShape s1 s2 hshape
  obtain ⟨hsave1, hfiles1, hkne1, hkself1, hknew1⟩ :=
    merge_facts temp1 st s1 t1 f1 h1
  obtain ⟨ki1, hget1, hsrc1, hinst1, hupd1, hmem1, hnd1⟩ := hknew1 hfresh
  obtain ⟨hsave2, hfiles2, hkne2, hkself2, hknew2⟩ :=
    merge_facts temp2 _ s2 t2 f2 h2
  have hload2 : loadRegistry (mergeAgentFolder temp1 st s1 t1 f1).store =
      (mergeAgentFolder temp1 st s1 t1 f1).memRegistry := by
    simp [loadRegistry, hsave1]
  have hget1m : alget (loadRegistry (mergeAgentFolder temp1 st s1 t1
      f1).store).kits (sanitizeKitId s2) = some ki1 := by
    rw [hload2, ← hsan]
    exact hget1
  obtain ⟨ki2, hget2, hsrc2, hinst2, hupd2, hmem2, hnd2⟩ := hkself2 ki1 hget1m
  refine ⟨hsan, _, ki2, hsave2, ?_, ?_, ?_, hupd2, ?_, ?_⟩
  · rw [hsan]
    exact hget2
  · rw [hsrc2, hsrc1]
  · rw [hinst2, hinst1]
  · intro p hp
    exact (hmem2 p).mpr (Or.inl ((hmem1 p).mpr hp))
  · intro p hp
    exact (hmem2 p).mpr (Or.inr hp)

theorem C10_kit_identity_collision_witness :
    (sameShape ("k.a" : String).data ("k-a" : String).data = true ∧
     alget (loadRegistry ⟨none, none⟩).kits (sanitizeKitId "k.a") = none ∧
     (mergeAgentFolder demoAgentA ⟨none, none⟩ "k.a" 0 []).error = none ∧
     (mergeAgentFolder demoAgentA (mergeAgentFolder demoAgentA ⟨none, none⟩
        "k.a" 0 []).store "k-a" 1 []).error = none) ∧
    sanitizeKitId "k.a" = sanitizeKitId "k-a" :=
  ⟨⟨by decide, by decide, by decide, by decide⟩,
   (C10_kit_identity_collision demoAgentA demoAgentA ⟨none, none⟩ "k.a"
      "k-a" 0 1 [] [] (by decide) (by decide) (by decide) (by decide)).1⟩

end AgJz
